import Mathlib

/-!
Verification development for the warzone-osm-processor pipeline driver
(src/main/routine/create.hpp) and its identifier type
(src/main/model/memory/type.hpp).  The pipeline components the driver
invokes (compressor, assemblers, neighbor inspector, area filter,
projector, validators) are not part of the available sources; they are
modelled from the specification, as marked on each definition.
Coordinates are embedded as rationals; machine doubles of the source are
rationals here, and the total rational division of Lean (x / 0 = 0) is
noted wherever a zero divisor can occur.
-/

namespace WarzoneOSM

/-! ### Identifier type, from src/main/model/memory/type.hpp -/

/-- Width in bits of object_id_type.  The source defines it as
`typedef signed long object_id_type`, documented there as the libosmium
id type (64-bit on the LP64 platforms the project targets), chosen
because OSM holds more than 2 to the 31 objects and invalid objects are
marked with negative ids. -/
def object_id_bits : Nat := 64

/-- Least value of the signed 64-bit object_id_type. -/
def object_id_min : Int := -(2 ^ 63)

/-- Greatest value of the signed 64-bit object_id_type. -/
def object_id_max : Int := 2 ^ 63 - 1

/-- Whether an integer fits in object_id_type. -/
def representableObjectId (n : Int) : Bool :=
  decide (object_id_min ≤ n) && decide (n ≤ object_id_max)

/-! ### Data model (spec section 3; the decoded containers of
model/container.hpp are not under src/, modelled from the spec). -/

/-- A point of the global point table: id and a mutable 2D coordinate. -/
structure Node where
  id : Int
  x : ℚ
  y : ℚ
deriving DecidableEq

/-- A boundary line: id and ordered sequence of point ids. -/
structure Way where
  id : Int
  refs : List Int
deriving DecidableEq

/-- Role of a relation member. -/
inductive Role where
  | outer
  | inner
deriving DecidableEq

/-- A relation member: a line id with a role. -/
structure Member where
  ref : Int
  role : Role
deriving DecidableEq

/-- An administrative-boundary relation. -/
structure Relation where
  id : Int
  level : Nat
  members : List Member
deriving DecidableEq

/-- An assembled area: id, source relation id, administrative level,
outer rings and inner rings, each ring an ordered closed sequence of
point ids. -/
structure Area where
  id : Int
  relation_id : Int
  level : Nat
  outers : List (List Int)
  inners : List (List Int)
deriving DecidableEq

/-- The decoded dataset handed to the pipeline by the external reader. -/
structure OsmData where
  nodes : List Node
  ways : List Way
  relations : List Relation
  incomplete_relations : List Int
deriving DecidableEq

/-- Coordinate of a point id in the global point table; (0, 0) for an
absent id. -/
def coordOf (nodes : List Node) (i : Int) : ℚ × ℚ :=
  match nodes.find? (fun n => decide (n.id = i)) with
  | some n => (n.x, n.y)
  | none => (0, 0)

/-! ### Simplifier (spec section 4.1; mapmaker/compressor.hpp is not
under src/, modelled from the spec).  Per line, a recursive
maximum-perpendicular-distance reduction retains the endpoints and every
point whose chord deviation exceeds the tolerance; a point referenced by
more than one line is always retained; the global commit phase then
deletes from the point table exactly the points no remaining line
references. -/

/-- Squared euclidean distance. -/
def dist2 (p q : ℚ × ℚ) : ℚ := (p.1 - q.1) ^ 2 + (p.2 - q.2) ^ 2

/-- Comparison measure of the perpendicular deviation of p from the
chord a-b: the squared cross product (proportional, for a fixed chord,
to the squared perpendicular distance).  For a degenerate chord the
squared distance to the point itself is used. -/
def chordMeasure (a b p : ℚ × ℚ) : ℚ :=
  if a = b then dist2 p a
  else ((b.1 - a.1) * (p.2 - a.2) - (b.2 - a.2) * (p.1 - a.1)) ^ 2

/-- True when the deviation of p from chord a-b is within the tolerance
eps, compared without square roots: cross squared is at most eps squared
times the squared chord length. -/
def withinTolerance (eps : ℚ) (a b p : ℚ × ℚ) : Bool :=
  if a = b then decide (dist2 p a ≤ eps ^ 2)
  else decide (chordMeasure a b p ≤ eps ^ 2 * dist2 a b)

/-- Index of the element maximizing f, scanning positions from i. -/
def argmaxAux (f : Int × ℚ × ℚ → ℚ) : List (Int × ℚ × ℚ) → Nat → Nat → ℚ → Nat
  | [], _, best, _ => best
  | x :: rest, i, best, bestv =>
    if bestv < f x then argmaxAux f rest (i + 1) i (f x)
    else argmaxAux f rest (i + 1) best bestv

/-- Douglas-Peucker retained ids of a polyline of (id, coordinate)
pairs: keep the two endpoints; find the interior point of maximum
perpendicular deviation from the chord; if it deviates beyond eps, keep
it and recurse on both halves, else drop all interior points.  Fuel
bounds the recursion depth (the point count suffices). -/
def dpKeep (eps : ℚ) : Nat → List (Int × ℚ × ℚ) → List Int
  | 0, l => l.map Prod.fst
  | fuel + 1, l =>
    match l.head?, l.getLast? with
    | some hd, some lst =>
      if l.length ≤ 2 then l.map Prod.fst
      else
        let a := hd.2
        let b := lst.2
        let i := argmaxAux (fun q => chordMeasure a b q.2) (l.tail.dropLast) 1 1 (-1)
        let pi := (l.get? i).getD hd
        if withinTolerance eps a b pi.2 then [hd.1, lst.1]
        else dpKeep eps fuel (l.take (i + 1)) ++ (dpKeep eps fuel (l.drop i)).tail
    | _, _ => l.map Prod.fst

/-- Number of references to point id p across all lines. -/
def refCount (ways : List Way) (p : Int) : Nat :=
  ((ways.map Way.refs).flatten).count p

/-- A point referenced more than once (shared between lines, or a ring
closure point) is never dropped by simplification. -/
def mandatoryNode (ways : List Way) (p : Int) : Bool :=
  decide (2 ≤ refCount ways p)

/-- Per-line decide phase of the simplifier: the simplified line keeps
its endpoints, every point referenced by more than one line, and every
point the Douglas-Peucker reduction retains. -/
def compress_way (nodes : List Node) (ways : List Way) (eps : ℚ) (w : Way) : Way :=
  let pts := w.refs.map (fun i => (i, coordOf nodes i))
  let kept := dpKeep eps pts.length pts
  ⟨w.id, w.refs.filter (fun i =>
    decide (w.refs.head? = some i) || decide (w.refs.getLast? = some i) ||
    mandatoryNode ways i || decide (i ∈ kept))⟩

/-- Two-phase simplification: every line is simplified independently,
then the global commit deletes from the point table exactly the points
no resulting line references.  Returns (new point table, new lines). -/
def Compressor.compress_ways (nodes : List Node) (ways : List Way) (eps : ℚ) :
    List Node × List Way :=
  let ws := ways.map (compress_way nodes ways eps)
  (nodes.filter (fun n => ws.any (fun w => decide (n.id ∈ w.refs))), ws)

/-! ### Direct area assembler (spec section 4.2; mapmaker/assembler.hpp
is not under src/, modelled from the spec).  For each selected relation
the member lines of each role are chained greedily by shared endpoint
ids until each chain closes into a ring; a relation with a chain that
cannot be closed is recorded as incomplete and produces no area. -/

/-- Orient line w to continue a chain ending at point id last: returns
the continuation ids (without the shared endpoint), reversing the line
when its last id matches. -/
def orientFrom (last : Int) (w : Way) : Option (List Int) :=
  if w.refs.head? = some last then some w.refs.tail
  else if w.refs.getLast? = some last then some w.refs.reverse.tail
  else none

/-- Find the first remaining line chainable at point id last; returns
its oriented continuation and the lines still remaining. -/
def findChain (last : Int) : List Way → Option (List Int × List Way)
  | [] => none
  | w :: rest =>
    match orientFrom last w with
    | some ext => some (ext, rest)
    | none =>
      match findChain last rest with
      | some (ext, rest2) => some (ext, w :: rest2)
      | none => none

/-- A chain is a closed ring when its first and last point ids coincide
and it has more than one entry. -/
def ringClosed (cur : List Int) : Bool :=
  decide (2 ≤ cur.length) && decide (cur.head? = cur.getLast?)

/-- Grow the chain cur by chaining remaining lines until it closes;
none when the chain is stuck open.  Fuel bounds the steps (one line is
consumed per step). -/
def buildRing : Nat → List Int → List Way → Option (List Int × List Way)
  | 0, _, _ => none
  | fuel + 1, cur, rest =>
    if ringClosed cur then some (cur, rest)
    else
      match cur.getLast? with
      | none => none
      | some lastId =>
        match findChain lastId rest with
        | none => none
        | some (ext, rest2) => buildRing fuel (cur ++ ext) rest2

/-- Chain all given lines into closed rings; none as soon as one chain
cannot be closed. -/
def assembleRingsFuel : Nat → List Way → Option (List (List Int))
  | 0, l => if l.isEmpty then some [] else none
  | fuel + 1, l =>
    match l with
    | [] => some []
    | w :: rest =>
      match buildRing (rest.length + 1) w.refs rest with
      | none => none
      | some (ring, rest2) =>
        match assembleRingsFuel fuel rest2 with
        | none => none
        | some rings => some (ring :: rings)

/-- Ring closure over a set of lines: all of them chained into closed
rings, or none when some chain remains open. -/
def assembleRings (ways : List Way) : Option (List (List Int)) :=
  assembleRingsFuel ways.length ways

/-- Line table lookup. -/
def lookupWay (ways : List Way) (i : Int) : Option Way :=
  ways.find? (fun w => decide (w.id = i))

/-- The member lines of a relation carrying the given role. -/
def roleWays (ways : List Way) (r : Relation) (role : Role) : List Way :=
  r.members.filterMap (fun m => if m.role = role then lookupWay ways m.ref else none)

/-- Result of an assembler pass: the produced areas and the ids of the
relations whose lines could not be chained into closed rings. -/
structure AssembleResult where
  areas : List Area
  incomplete : List Int
deriving DecidableEq

/-- Assembly loop over the relations: a selected relation whose outer
and inner role lines all chain into closed rings produces one area with
a fresh sequential id; a selected relation with an unclosable chain is
recorded as incomplete and produces nothing; other relations are
skipped. -/
def assembleLoop (ways : List Way) (levels : List Nat) : List Relation → Nat → AssembleResult
  | [], _ => ⟨[], []⟩
  | r :: rest, n =>
    if r.level ∈ levels then
      match assembleRings (roleWays ways r Role.outer),
            assembleRings (roleWays ways r Role.inner) with
      | some outs, some ins =>
        let res := assembleLoop ways levels rest (n + 1)
        ⟨⟨Int.ofNat n, r.id, r.level, outs, ins⟩ :: res.areas, res.incomplete⟩
      | _, _ =>
        let res := assembleLoop ways levels rest n
        ⟨res.areas, r.id :: res.incomplete⟩
    else assembleLoop ways levels rest n

/-- Direct strategy: assemble areas from the relations whose level is in
levels. -/
def SimpleAreaAssembler.assemble_areas (ways : List Way) (relations : List Relation)
    (levels : List Nat) : AssembleResult :=
  assembleLoop ways levels relations 0

/-! ### Neighbor inspector (spec section 4.4; mapmaker/inspector.hpp is
not under src/, modelled from the spec).  Every unordered pair of
consecutive ring point ids is a boundary segment key; two areas are
adjacent iff they share a key.  The source builds the full key index
first and queries it afterwards; the query over the complete area list
is expressed directly here, which is what the two-phase construction
computes. -/

/-- Segment keys of one ring: each unordered pair of consecutive point
ids, normalized with the smaller id first. -/
def pairKeys : List Int → List (Int × Int)
  | a :: b :: rest => (if a ≤ b then (a, b) else (b, a)) :: pairKeys (b :: rest)
  | _ => []

/-- All boundary segment keys of an area, over its outer and inner
rings. -/
def Area.segKeys (a : Area) : List (Int × Int) :=
  ((a.outers ++ a.inners).map pairKeys).flatten

/-- Two areas share at least one boundary segment key. -/
def sharesSegment (a b : Area) : Bool :=
  a.segKeys.any (fun s => decide (s ∈ b.segKeys))

/-- Neighbor ids of area a within the given area set: the ids of the
other areas sharing a boundary segment with it. -/
def neighborsOf (areas : List Area) (a : Area) : List Int :=
  (areas.filter (fun b => decide (b.id ≠ a.id) && sharesSegment a b)).map Area.id

/-- Adjacency test between two areas. -/
def adjacentB (a b : Area) : Bool :=
  decide (a.id ≠ b.id) && sharesSegment a b

/-- Saturate a component: repeatedly absorb every area adjacent to one
already in the component.  Fuel bounds the rounds (the area count
suffices). -/
def expandComp (areas : List Area) : Nat → List Int → List Int
  | 0, comp => comp
  | fuel + 1, comp =>
    let next := areas.filter (fun b =>
      !(decide (b.id ∈ comp)) && areas.any (fun a => decide (a.id ∈ comp) && adjacentB a b))
    if next.isEmpty then comp
    else expandComp areas fuel (comp ++ next.map Area.id)

/-- Assign component numbers: traverse the areas in order, and for each
area not yet assigned, flood its full component under adjacency and give
it the next component number. -/
def componentLoop (areas : List Area) : List Area → List (Int × Nat) → Nat → List (Int × Nat)
  | [], acc, _ => acc
  | a :: rest, acc, cnum =>
    if (acc.find? (fun q => decide (q.1 = a.id))).isSome then componentLoop areas rest acc cnum
    else componentLoop areas rest
      (acc ++ (expandComp areas areas.length [a.id]).map (fun i => (i, cnum))) (cnum + 1)

/-- The inspector output: the adjacency graph (area id to neighbor ids)
and the component map (area id to component number), both derived from
the same area set. -/
def NeighborInspector.get_relations (areas : List Area) :
    List (Int × List Int) × List (Int × Nat) :=
  (areas.map (fun a => (a.id, neighborsOf areas a)), componentLoop areas areas [] 0)

/-! ### Area filter (spec section 4.5; mapmaker/filter.hpp is not under
src/, modelled from the spec).  The size of an area is the shoelace
area of its outer rings minus its inner rings; an area is removed iff
its size divided by the total size of the areas of its component is
strictly below the tolerance. -/

/-- Twice the signed shoelace sum of a closed coordinate ring (the ring
repeats its first coordinate at the end, so consecutive pairs cover the
whole cycle). -/
def shoelaceSum : List (ℚ × ℚ) → ℚ
  | p :: q :: rest => (p.1 * q.2 - q.1 * p.2) + shoelaceSum (q :: rest)
  | _ => 0

/-- Shoelace area of one ring of point ids. -/
def ringSize (nodes : List Node) (ring : List Int) : ℚ :=
  |shoelaceSum (ring.map (coordOf nodes))| / 2

/-- Planar size of an area: outer ring areas minus inner ring areas. -/
def areaSize (nodes : List Node) (a : Area) : ℚ :=
  (a.outers.map (ringSize nodes)).sum - (a.inners.map (ringSize nodes)).sum

/-- Component number of an area id under a component map. -/
def compOf (comps : List (Int × Nat)) (aid : Int) : Nat :=
  (((comps.find? (fun q => decide (q.1 = aid))).map Prod.snd).getD 0)

/-- Total size of the areas of component c. -/
def compTotal (nodes : List Node) (areas : List Area) (comps : List (Int × Nat))
    (c : Nat) : ℚ :=
  ((areas.filter (fun b => decide (compOf comps b.id = c))).map (areaSize nodes)).sum

/-- Relative-size filter: keep exactly the areas whose size ratio within
their component is not strictly below the tolerance. -/
def AreaFilter.filter_areas (nodes : List Node) (areas : List Area)
    (comps : List (Int × Nat)) (eps : ℚ) : List Area :=
  areas.filter (fun a =>
    !(decide (areaSize nodes a / compTotal nodes areas comps (compOf comps a.id) < eps)))

/-! ### Composite area assembler (spec section 4.3; mapmaker/assembler.hpp
is not under src/, modelled from the spec).  For each bonus level, rings
are assembled exactly as in the direct strategy (the shared ring-closure
primitive), and the produced bonus areas are appended to the existing
area set, never replacing territory areas.  The polygon-union
aggregation of member territories is flagged by the spec as not fully
specified and is not part of this model. -/

/-- Bonus areas produced for the given levels, with ids continuing after
startId. -/
def bonusAreas (ways : List Way) (relations : List Relation) (startId : Nat)
    (levels : List Nat) : List Area :=
  (assembleLoop ways levels relations startId).areas

/-- Composite strategy: append the bonus areas to the existing area
set. -/
def ComplexAreaAssembler.assemble_areas (ways : List Way) (relations : List Relation)
    (areas : List Area) (levels : List Nat) : List Area :=
  areas ++ bonusAreas ways relations areas.length levels

/-- The bonus step of the driver: skipped entirely when no bonus level
is configured (create.hpp line 174). -/
def bonusPhase (ways : List Way) (relations : List Relation) (areas : List Area)
    (levels : List Nat) : List Area :=
  if levels.isEmpty then areas
  else ComplexAreaAssembler.assemble_areas ways relations areas levels

/-! ### Projector and the scaling step.  The projection steps are pure
coordinate maps applied in caller order to every point of the table
(spec section 4.6; functions/project.hpp and mapmaker/projector.hpp are
not under src/, modelled from the spec).  The radian and Mercator steps
are transcendental maps (degrees to radians, web Mercator) outside the
rational embedding; the driver embedding takes them as function
parameters.  The scaling step itself is embedded from create.hpp lines
193 to 219. -/

/-- Apply one projection step to every point of the table, in place. -/
def Projector.apply_projection (f : ℚ × ℚ → ℚ × ℚ) (nodes : List Node) : List Node :=
  nodes.map (fun n => ⟨n.id, (f (n.x, n.y)).1, (f (n.x, n.y)).2⟩)

/-- Modelled from the spec: the normalization step rescaling the given
interval per axis to the unit square,
functions/project.hpp not being under src/. -/
def UnitProjection (ix iy : ℚ × ℚ) (p : ℚ × ℚ) : ℚ × ℚ :=
  ((p.1 - ix.1) / (ix.2 - ix.1), (p.2 - iy.1) / (iy.2 - iy.1))

/-- Modelled from the spec: the general interval-remap step mapping one
numeric interval per axis to another,
functions/project.hpp not being under src/. -/
def IntervalProjection (sx sy tx ty : ℚ × ℚ) (p : ℚ × ℚ) : ℚ × ℚ :=
  (tx.1 + (p.1 - sx.1) / (sx.2 - sx.1) * (tx.2 - tx.1),
   ty.1 + (p.2 - sy.1) / (sy.2 - sy.1) * (ty.2 - ty.1))

/-- An axis-aligned bounding rectangle, as geometry::Rectangle of the
source. -/
structure Rectangle where
  minx : ℚ
  maxx : ℚ
  miny : ℚ
  maxy : ℚ
deriving DecidableEq

/-- Horizontal extent. -/
def Rectangle.width (r : Rectangle) : ℚ := r.maxx - r.minx

/-- Vertical extent. -/
def Rectangle.height (r : Rectangle) : ℚ := r.maxy - r.miny

/-- Modelled from the spec: geometry/rectangle.hpp is not under src/;
the driver declares a default-constructed Rectangle (zero bounds), and
its TODO at create.hpp line 195 records that these bounds are never
recalculated from the data. -/
def Rectangle.defaultRect : Rectangle := ⟨0, 0, 0, 0⟩

/-- Modelled from the spec: the coordinate bounds recomputed from the
current point table, the behavior the spec requires for the automatic
dimension computation (spec sections 4.6 and 9). -/
def computeBounds (nodes : List Node) : Rectangle :=
  match nodes with
  | [] => Rectangle.defaultRect
  | n :: rest =>
    rest.foldl (fun r m => ⟨min r.minx m.x, max r.maxx m.x, min r.miny m.y, max r.maxy m.y⟩)
      ⟨n.x, n.x, n.y, n.y⟩

/-- The bounds value the scaling step of run actually uses: the
default-constructed rectangle of create.hpp line 196, independent of the
point table. -/
def scaleBounds : Rectangle := Rectangle.defaultRect

/-- The divisor of the automatic dimension computation of create.hpp
lines 199 to 209: the bounds height when the width is the automatic
dimension, else the bounds width. -/
def autoDivisor (width : Nat) (bounds : Rectangle) : ℚ :=
  if width = 0 then bounds.height else bounds.width

/-- The dimension computation of create.hpp lines 199 to 209: a zero
dimension is computed from the other one and the aspect of the given
bounds.  The source stores the quotient of doubles into size_t; the
division is embedded as the total rational division (a zero divisor
yields 0 where the source doubles yield NaN or infinity). -/
def autoDimensions (width height : Nat) (bounds : Rectangle) : ℚ × ℚ :=
  if width = 0 ∨ height = 0 then
    if width = 0 then (bounds.width / bounds.height * height, (height : ℚ))
    else ((width : ℚ), bounds.height / bounds.width * width)
  else ((width : ℚ), (height : ℚ))

/-- The scaling step of run, create.hpp lines 193 to 219: take the
default-constructed bounds, auto-compute a zero dimension from them,
then apply the unit projection over those bounds followed by the
interval remap onto the pixel dimensions.  Returns the projected table
and the final dimensions. -/
def scalePhase (nodes : List Node) (width height : Nat) : List Node × ℚ × ℚ :=
  let bounds := scaleBounds
  let wh := autoDimensions width height bounds
  let n1 := Projector.apply_projection
    (UnitProjection (bounds.minx, bounds.maxx) (bounds.miny, bounds.maxy)) nodes
  let n2 := Projector.apply_projection
    (IntervalProjection (0, 1) (0, 1) (0, wh.1) (0, wh.2)) n1
  (n2, wh)

/-! ### Configuration validation (create.hpp lines 97 to 103; the
util/validate.hpp validators are not under src/, modelled from the spec
error classes of section 7). -/

/-- The configuration consumed by run.  File readability is abstracted
to a flag, since the file system is outside the embedding. -/
structure Config where
  input_readable : Bool
  territory_level : Nat
  bonus_levels : List Nat
  width : Nat
  height : Nat
  compression_epsilon : ℚ
  filter_epsilon : ℚ
deriving DecidableEq

/-- The fatal validation errors of spec section 7. -/
inductive ValidationError where
  | invalidFile
  | invalidLevels
  | invalidDimensions
  | invalidEpsilon
deriving DecidableEq

/-- Modelled from the spec: util/validate.hpp is not under src/; an
unreadable input path is fatal. -/
def util.validate_file (readable : Bool) : Except ValidationError Unit :=
  if readable then Except.ok () else Except.error ValidationError.invalidFile

/-- Modelled from the spec: an administrative level outside 1 to 12, or
a bonus level equal to the territory level, is fatal. -/
def util.validate_levels (territory : Nat) (bonus : List Nat) : Except ValidationError Unit :=
  if 1 ≤ territory ∧ territory ≤ 12 ∧
      ∀ b ∈ bonus, (1 ≤ b ∧ b ≤ 12 ∧ b ≠ territory) then Except.ok ()
  else Except.error ValidationError.invalidLevels

/-- Modelled from the spec: nonsensical dimensions are fatal; with the
unsigned size_t dimensions that is both set to zero, leaving no
dimension to derive the other from. -/
def util.validate_dimensions (width height : Nat) : Except ValidationError Unit :=
  if width = 0 ∧ height = 0 then Except.error ValidationError.invalidDimensions
  else Except.ok ()

/-- Modelled from the spec: a negative tolerance is fatal. -/
def util.validate_epsilon (e : ℚ) : Except ValidationError Unit :=
  if e < 0 then Except.error ValidationError.invalidEpsilon else Except.ok ()

/-- The validation sequence of run, create.hpp lines 99 to 103, in
source order. -/
def validateAll (cfg : Config) : Except ValidationError Unit := do
  util.validate_file cfg.input_readable
  util.validate_levels cfg.territory_level cfg.bonus_levels
  util.validate_dimensions cfg.width cfg.height
  util.validate_epsilon cfg.compression_epsilon
  util.validate_epsilon cfg.filter_epsilon

/-- Validity of a configuration, as one boolean. -/
def validConfig (cfg : Config) : Bool :=
  cfg.input_readable &&
  decide (1 ≤ cfg.territory_level ∧ cfg.territory_level ≤ 12 ∧
    ∀ b ∈ cfg.bonus_levels, (1 ≤ b ∧ b ≤ 12 ∧ b ≠ cfg.territory_level)) &&
  !(decide (cfg.width = 0 ∧ cfg.height = 0)) &&
  !(decide (cfg.compression_epsilon < 0)) &&
  !(decide (cfg.filter_epsilon < 0))

/-! ### The driver pipeline (routine::create::run, create.hpp lines 41
to 254).  The stage sequence is instrumented with an event trace; the
stage events that modify the area set carry the area count before and
after, so that staleness of the adjacency graph and component map can be
stated over the trace. -/

/-- One observable step of the driver pipeline. -/
inductive Event where
  | readData (incompleteCount : Nat)
  | compressWays (nodesBefore nodesAfter : Nat)
  | assembleTerritories (areasBefore areasAfter : Nat)
  | inspect
  | filterAreas (areasBefore areasAfter : Nat)
  | assembleBonus (areasBefore areasAfter : Nat)
  | project
  | scaleMap (w h : ℚ)
deriving DecidableEq

/-- Whether an event replaced the area set by a different one. -/
def changesAreaSet : Event → Bool
  | Event.assembleTerritories b a => b != a
  | Event.filterAreas b a => b != a
  | Event.assembleBonus b a => b != a
  | _ => false

/-- Whether an event reads the adjacency graph or the component map
(the area filter consumes the component map). -/
def Event.usesGraph : Event → Bool
  | Event.filterAreas _ _ => true
  | _ => false

/-- Whether an event recomputes the adjacency graph and component map. -/
def Event.isInspect : Event → Bool
  | Event.inspect => true
  | _ => false

/-- Scan of an event trace checking that every read of the adjacency
graph or component map happens while they are current: the flag records
whether the graph derives from the present area set, is raised by an
inspection and cleared by any event that changes the area set. -/
def graphUseOk : List Event → Bool → Bool
  | [], _ => true
  | Event.inspect :: rest, _ => graphUseOk rest true
  | e :: rest, fresh =>
    (!(Event.usesGraph e) || fresh) && graphUseOk rest (fresh && !(changesAreaSet e))

/-- No stage of the trace reads an adjacency graph or component map
derived from a superseded area set. -/
def noStaleGraphUse (evs : List Event) : Bool := graphUseOk evs false

/-- The recomputation discipline asserted by the claim: whenever the
area set changes after an inspection has run, a new inspection follows
later in the trace (at the latest before the results are handed
onward at the end of the pipeline). -/
def recomputedAfterChanges : List Event → Bool → Bool
  | [], _ => true
  | Event.inspect :: rest, _ => recomputedAfterChanges rest true
  | e :: rest, seen =>
    (!(seen && changesAreaSet e) || rest.any Event.isInspect) &&
    recomputedAfterChanges rest seen

/-- The claim predicate over a full trace. -/
def claimC2asStated (evs : List Event) : Bool := recomputedAfterChanges evs false

/-- The stage pipeline of run after successful validation, embedded from
create.hpp lines 116 to 219: read data, compress when the compression
tolerance is positive, assemble territories, inspect neighbors and
components once, filter when the filter tolerance is positive, append
bonus areas when bonus levels are configured, apply the radian and
Mercator projections, then the scaling step.  The adjacency graph and
component map are computed exactly once and never recomputed. -/
structure RunResult where
  nodes : List Node
  areas : List Area
  neighbors : List (Int × List Int)
  components : List (Int × Nat)
  incomplete : List Int
  width : ℚ
  height : ℚ
  events : List Event

/-- The pipeline stages of run (no validation), in driver order. -/
def runStages (radian mercator : ℚ × ℚ → ℚ × ℚ) (cfg : Config) (data : OsmData) :
    RunResult :=
  let nw := if 0 < cfg.compression_epsilon then
      Compressor.compress_ways data.nodes data.ways cfg.compression_epsilon
    else (data.nodes, data.ways)
  let compEvents : List Event := if 0 < cfg.compression_epsilon then
      [Event.compressWays data.nodes.length nw.1.length] else []
  let ar := SimpleAreaAssembler.assemble_areas nw.2 data.relations [cfg.territory_level]
  let areas1 := ar.areas
  let rel := NeighborInspector.get_relations areas1
  let areas2 := if 0 < cfg.filter_epsilon then
      AreaFilter.filter_areas nw.1 areas1 rel.2 cfg.filter_epsilon
    else areas1
  let filtEvents : List Event := if 0 < cfg.filter_epsilon then
      [Event.filterAreas areas1.length areas2.length] else []
  let areas3 := bonusPhase nw.2 data.relations areas2 cfg.bonus_levels
  let bonEvents : List Event := if cfg.bonus_levels.isEmpty then []
    else [Event.assembleBonus areas2.length areas3.length]
  let nodes2 := Projector.apply_projection mercator (Projector.apply_projection radian nw.1)
  let sc := scalePhase nodes2 cfg.width cfg.height
  let events := Event.readData data.incomplete_relations.length ::
    (compEvents ++ (Event.assembleTerritories 0 areas1.length :: Event.inspect ::
      (filtEvents ++ (bonEvents ++ [Event.project, Event.scaleMap sc.2.1 sc.2.2]))))
  ⟨sc.1, areas3, rel.1, rel.2, ar.incomplete, sc.2.1, sc.2.2, events⟩

/-- routine::create::run: validate the configuration first; any invalid
value aborts before any pipeline stage; otherwise execute the stages in
driver order. -/
def routine.create.run (radian mercator : ℚ × ℚ → ℚ × ℚ) (cfg : Config)
    (data : OsmData) : Except ValidationError RunResult :=
  match validateAll cfg with
  | Except.error e => Except.error e
  | Except.ok _ => Except.ok (runStages radian mercator cfg data)

/-! ### Concrete pipeline input exercising area removal and bonus
assembly: two adjacent squares of sizes 16 and 4 at territory level 2
(one shared boundary segment, a single component, size ratios four
fifths and one fifth), one bonus relation at level 4, filter tolerance
1 (both ratios are below it, so the filter removes areas). -/

/-- Point table of the two-squares dataset. -/
def nodesTwoSquares : List Node :=
  [⟨1, 0, 0⟩, ⟨2, 4, 0⟩, ⟨3, 4, 4⟩, ⟨4, 0, 4⟩, ⟨5, 5, 0⟩, ⟨6, 5, 4⟩]

/-- The decoded two-squares dataset. -/
def dataTwoSquares : OsmData :=
  { nodes := nodesTwoSquares
    ways := [⟨101, [1, 2, 3, 4, 1]⟩, ⟨102, [2, 5, 6, 3, 2]⟩]
    relations :=
      [⟨1, 2, [⟨101, Role.outer⟩]⟩, ⟨2, 2, [⟨102, Role.outer⟩]⟩,
       ⟨3, 4, [⟨101, Role.outer⟩]⟩]
    incomplete_relations := [] }

/-- A configuration that filters (tolerance 1) and assembles bonus
areas (level 4) over the two-squares dataset. -/
def cfgTwoSquares : Config :=
  { input_readable := true
    territory_level := 2
    bonus_levels := [4]
    width := 1000
    height := 0
    compression_epsilon := 0
    filter_epsilon := 1 }

/-! ## Theorems -/

/-- The validation sequence succeeds exactly on valid configurations. -/
theorem validateAll_ok_iff (cfg : Config) :
    validateAll cfg = Except.ok () ↔ validConfig cfg = true := by
  simp only [validateAll, validConfig, util.validate_file, util.validate_levels,
    util.validate_dimensions, util.validate_epsilon, bind, Except.bind]
  split_ifs <;> simp_all <;> tauto

/-- Claim C7: if any configuration value is invalid (unreadable input,
territory or bonus level outside 1 to 12 or a bonus level equal to the
territory level, both dimensions zero, or a negative tolerance), run
raises a validation error before any pipeline stage executes and returns
no stage output. -/
theorem claim_C7 (radian mercator : ℚ × ℚ → ℚ × ℚ) (cfg : Config) (data : OsmData)
    (h : validConfig cfg = false) :
    ∃ e, validateAll cfg = Except.error e ∧
      routine.create.run radian mercator cfg data = Except.error e := by
  cases hv : validateAll cfg with
  | error e =>
    refine ⟨e, rfl, ?_⟩
    unfold routine.create.run
    rw [hv]
  | ok u =>
    cases u
    have := (validateAll_ok_iff cfg).mp hv
    rw [this] at h
    cases h

/-- Witness for claim C7 at a concrete invalid configuration (territory
level 0 is outside 1 to 12). -/
theorem claim_C7_witness :
    validConfig ⟨true, 0, [], 1000, 0, 0, 0⟩ = false ∧
      ∃ e, validateAll ⟨true, 0, [], 1000, 0, 0, 0⟩ = Except.error e ∧
        routine.create.run id id ⟨true, 0, [], 1000, 0, 0, 0⟩ ⟨[], [], [], []⟩ =
          Except.error e :=
  ⟨by decide, claim_C7 id id ⟨true, 0, [], 1000, 0, 0, 0⟩ ⟨[], [], [], []⟩ (by decide)⟩

/-- Claim C9: object_id_type is a signed 64-bit integer: every id above
2 to the 31 that fits the 64-bit range is representable, as is every
negative sentinel id of the range, and the range reaches beyond 2 to
the 31. -/
theorem claim_C9 :
    (∀ n : Int, 2 ^ 31 < n → n ≤ object_id_max → representableObjectId n = true) ∧
    (∀ n : Int, object_id_min ≤ n → n < 0 → representableObjectId n = true) ∧
    (2 : Int) ^ 31 < object_id_max := by
  refine ⟨fun n h1 h2 => ?_, fun n h1 h2 => ?_, by norm_num [object_id_max]⟩
  · simp only [representableObjectId, Bool.and_eq_true, decide_eq_true_eq]
    refine ⟨le_trans (by norm_num [object_id_min]) h1.le, h2⟩
  · simp only [representableObjectId, Bool.and_eq_true, decide_eq_true_eq]
    exact ⟨h1, le_trans h2.le (by norm_num [object_id_max])⟩

/-- Witness for claim C9 at concrete ids: 2 to the 32 (above the 32-bit
range) and the sentinel -5. -/
theorem claim_C9_witness :
    (2 : Int) ^ 31 < 2 ^ 32 ∧ representableObjectId (2 ^ 32) = true ∧
      object_id_min ≤ (-5 : Int) ∧ representableObjectId (-5) = true :=
  ⟨by norm_num, claim_C9.1 (2 ^ 32) (by norm_num) (by norm_num [object_id_max]),
   by norm_num [object_id_min],
   claim_C9.2.1 (-5) (by norm_num [object_id_min]) (by norm_num)⟩

/-- Claim C10: the automatic dimension computation of run divides by an
extent of the default-constructed rectangle, which is never recomputed
from the point table (the scaling step is independent of the point
values), and that divisor is zero. -/
theorem claim_C10 (nodes : List Node) (width height : Nat) :
    scaleBounds = Rectangle.defaultRect ∧
    autoDivisor width scaleBounds = 0 ∧
    (scalePhase nodes width height).2 = autoDimensions width height Rectangle.defaultRect := by
  refine ⟨rfl, ?_, rfl⟩
  unfold autoDivisor scaleBounds Rectangle.defaultRect Rectangle.height Rectangle.width
  split <;> norm_num

/-- Claim C1 (evidence of the divergence): at a concrete post-projection
point table with bounds 2 by 1 and configuration width 1000, height
auto, the height the scaling step of run computes from its
default-constructed bounds differs from the height required by the
claim, namely the width times the aspect of the bounds recomputed from
the point table (the embedding of the division is total, so the zero
divisor yields 0 where the source doubles yield NaN; either value
differs from the required 500). -/
theorem claim_C1_bug :
    (autoDimensions 1000 0 scaleBounds).2 = 0 ∧
    (autoDimensions 1000 0 (computeBounds [⟨1, 0, 0⟩, ⟨2, 2, 1⟩])).2 = 500 ∧
    (autoDimensions 1000 0 scaleBounds).2 ≠
      (autoDimensions 1000 0 (computeBounds [⟨1, 0, 0⟩, ⟨2, 2, 1⟩])).2 := by
  have h1 : (autoDimensions 1000 0 scaleBounds).2 = 0 := by
    norm_num [autoDimensions, scaleBounds, Rectangle.defaultRect, Rectangle.width,
      Rectangle.height]
  have h2 : (autoDimensions 1000 0 (computeBounds [⟨1, 0, 0⟩, ⟨2, 2, 1⟩])).2 = 500 := by
    norm_num [autoDimensions, computeBounds, Rectangle.width, Rectangle.height,
      List.foldl]
  refine ⟨h1, h2, ?_⟩
  rw [h1, h2]
  norm_num

/-- Claim C8: the composite assembler only appends: every area present
before the call is still present, the prior area list is an unchanged
initial segment of the result, and with no bonus level configured the
bonus step leaves the area set untouched. -/
theorem claim_C8 (ways : List Way) (relations : List Relation) (areas : List Area)
    (levels : List Nat) :
    (∀ a ∈ areas, a ∈ ComplexAreaAssembler.assemble_areas ways relations areas levels) ∧
    (ComplexAreaAssembler.assemble_areas ways relations areas levels).take areas.length
      = areas ∧
    bonusPhase ways relations areas [] = areas := by
  refine ⟨fun a ha => List.mem_append_left _ ha, ?_, rfl⟩
  unfold ComplexAreaAssembler.assemble_areas
  exact List.take_left areas _

/-- Witness for claim C8 at a concrete area set and bonus level. -/
theorem claim_C8_witness :
    (⟨0, 1, 2, [[1, 2, 1]], []⟩ : Area) ∈ ([⟨0, 1, 2, [[1, 2, 1]], []⟩] : List Area) ∧
    (⟨0, 1, 2, [[1, 2, 1]], []⟩ : Area) ∈
      ComplexAreaAssembler.assemble_areas [] [] [⟨0, 1, 2, [[1, 2, 1]], []⟩] [3] ∧
    (ComplexAreaAssembler.assemble_areas [] [] [⟨0, 1, 2, [[1, 2, 1]], []⟩] [3]).take
      ([(⟨0, 1, 2, [[1, 2, 1]], []⟩ : Area)].length) = [⟨0, 1, 2, [[1, 2, 1]], []⟩] :=
  ⟨by decide,
   (claim_C8 [] [] [⟨0, 1, 2, [[1, 2, 1]], []⟩] [3]).1 _ (by decide),
   (claim_C8 [] [] [⟨0, 1, 2, [[1, 2, 1]], []⟩] [3]).2.1⟩

/-- Claim C4: the area filter removes an area of the set exactly when
its size divided by the total size of its component is strictly below
the tolerance; with tolerance zero every area is kept (the sizes being
nonnegative, as the orientation invariants of the data model give). -/
theorem claim_C4 (nodes : List Node) (areas : List Area) (comps : List (Int × Nat))
    (t : ℚ) (a : Area) (ht : 0 ≤ t) (hpos : ∀ b ∈ areas, 0 ≤ areaSize nodes b)
    (ha : a ∈ areas) :
    (a ∉ AreaFilter.filter_areas nodes areas comps t ↔
      areaSize nodes a / compTotal nodes areas comps (compOf comps a.id) < t) ∧
    a ∈ AreaFilter.filter_areas nodes areas comps 0 := by
  constructor
  · unfold AreaFilter.filter_areas
    simp [List.mem_filter, ha]
  · unfold AreaFilter.filter_areas
    rw [List.mem_filter]
    refine ⟨ha, ?_⟩
    have h1 : 0 ≤ areaSize nodes a := hpos a ha
    have h2 : 0 ≤ compTotal nodes areas comps (compOf comps a.id) := by
      unfold compTotal
      apply List.sum_nonneg
      intro x hx
      rcases List.mem_map.mp hx with ⟨b, hb, rfl⟩
      exact hpos b (List.mem_filter.mp hb).1
    simp [not_lt.mpr (div_nonneg h1 h2)]

/-- Witness for claim C4 at the two adjacent squares of sizes 16 and 4
(single component of total 20) and tolerance one: the smaller square has
ratio one fifth, strictly below one, so it is removed. -/
theorem claim_C4_witness :
    (0 : ℚ) ≤ 1 ∧
    (∀ b ∈ [(⟨0, 1, 2, [[1, 2, 3, 4, 1]], []⟩ : Area), ⟨1, 2, 2, [[2, 5, 6, 3, 2]], []⟩],
      0 ≤ areaSize nodesTwoSquares b) ∧
    ((⟨1, 2, 2, [[2, 5, 6, 3, 2]], []⟩ : Area) ∉
        AreaFilter.filter_areas nodesTwoSquares
          [⟨0, 1, 2, [[1, 2, 3, 4, 1]], []⟩, ⟨1, 2, 2, [[2, 5, 6, 3, 2]], []⟩]
          [(0, 0), (1, 0)] 1 ↔
      areaSize nodesTwoSquares ⟨1, 2, 2, [[2, 5, 6, 3, 2]], []⟩ /
          compTotal nodesTwoSquares
            [⟨0, 1, 2, [[1, 2, 3, 4, 1]], []⟩, ⟨1, 2, 2, [[2, 5, 6, 3, 2]], []⟩]
            [(0, 0), (1, 0)] (compOf [(0, 0), (1, 0)] 1) < 1) ∧
    (⟨1, 2, 2, [[2, 5, 6, 3, 2]], []⟩ : Area) ∈
      AreaFilter.filter_areas nodesTwoSquares
        [⟨0, 1, 2, [[1, 2, 3, 4, 1]], []⟩, ⟨1, 2, 2, [[2, 5, 6, 3, 2]], []⟩]
        [(0, 0), (1, 0)] 0 := by
  have hpos : ∀ b ∈ [(⟨0, 1, 2, [[1, 2, 3, 4, 1]], []⟩ : Area),
      ⟨1, 2, 2, [[2, 5, 6, 3, 2]], []⟩], 0 ≤ areaSize nodesTwoSquares b := by
    intro b hb
    rcases List.mem_cons.mp hb with rfl | hb
    · norm_num [areaSize, ringSize, shoelaceSum, coordOf, nodesTwoSquares, List.find?]
    · rcases List.mem_cons.mp hb with rfl | hb
      · norm_num [areaSize, ringSize, shoelaceSum, coordOf, nodesTwoSquares, List.find?]
      · cases hb
  have h := claim_C4 nodesTwoSquares
    [⟨0, 1, 2, [[1, 2, 3, 4, 1]], []⟩, ⟨1, 2, 2, [[2, 5, 6, 3, 2]], []⟩]
    [(0, 0), (1, 0)] 1 ⟨1, 2, 2, [[2, 5, 6, 3, 2]], []⟩ (by norm_num) hpos
    (by simp)
  have h0 := claim_C4 nodesTwoSquares
    [⟨0, 1, 2, [[1, 2, 3, 4, 1]], []⟩, ⟨1, 2, 2, [[2, 5, 6, 3, 2]], []⟩]
    [(0, 0), (1, 0)] 0 ⟨1, 2, 2, [[2, 5, 6, 3, 2]], []⟩ le_rfl hpos
    (by simp)
  exact ⟨by norm_num, hpos, h.1, h0.2⟩

/-- Every area produced by the assembly loop carries the id of a
relation of the processed list as its relation_id. -/
theorem assembleLoop_relation_id (ways : List Way) (levels : List Nat) :
    ∀ (l : List Relation) (n : Nat) (rid : Int), (∀ x ∈ l, x.id ≠ rid) →
      ∀ a ∈ (assembleLoop ways levels l n).areas, a.relation_id ≠ rid := by
  intro l
  induction l with
  | nil => intro n rid hne a ha; simp [assembleLoop] at ha
  | cons r rest ih =>
    intro n rid hne a ha
    have hrest : ∀ x ∈ rest, x.id ≠ rid := fun x hx => hne x (List.mem_cons_of_mem _ hx)
    by_cases hl : r.level ∈ levels
    · rcases h1 : assembleRings (roleWays ways r Role.outer) with _ | outs
      · simp only [assembleLoop, if_pos hl, h1] at ha
        exact ih n rid hrest a ha
      · rcases h2 : assembleRings (roleWays ways r Role.inner) with _ | ins
        · simp only [assembleLoop, if_pos hl, h1, h2] at ha
          exact ih n rid hrest a ha
        · simp only [assembleLoop, if_pos hl, h1, h2, List.mem_cons] at ha
          rcases ha with rfl | ha
          · exact hne r (List.mem_cons_self r rest)
          · exact ih (n + 1) rid hrest a ha
    · simp only [assembleLoop, if_neg hl] at ha
      exact ih n rid hrest a ha

/-- A selected relation whose outer role lines cannot be chained into
closed rings is recorded in the incomplete set of the assembly loop, and
no area of the loop output carries its id, provided the relation ids of
the list are distinct. -/
theorem assembleLoop_incomplete (ways : List Way) (levels : List Nat) (r : Relation)
    (hl : r.level ∈ levels) (hout : assembleRings (roleWays ways r Role.outer) = none) :
    ∀ (l : List Relation) (n : Nat), (l.map Relation.id).Nodup → r ∈ l →
      r.id ∈ (assembleLoop ways levels l n).incomplete ∧
      ∀ a ∈ (assembleLoop ways levels l n).areas, a.relation_id ≠ r.id := by
  intro l
  induction l with
  | nil => intro n _ hmem; cases hmem
  | cons r0 rest ih =>
    intro n hnd hmem
    have hnd2 : (rest.map Relation.id).Nodup := (List.nodup_cons.mp hnd).2
    have hid0 : r0.id ∉ rest.map Relation.id := (List.nodup_cons.mp hnd).1
    rcases List.mem_cons.mp hmem with rfl | hmem
    · constructor
      · simp [assembleLoop, hl, hout]
      · intro a ha
        simp only [assembleLoop, if_pos hl, hout] at ha
        refine assembleLoop_relation_id ways levels rest n r.id ?_ a ha
        intro x hx he
        exact hid0 (he ▸ List.mem_map_of_mem Relation.id hx)
    · have hrid : r.id ∈ rest.map Relation.id := List.mem_map_of_mem Relation.id hmem
      have hne0 : r0.id ≠ r.id := fun he => hid0 (he ▸ hrid)
      by_cases hl0 : r0.level ∈ levels
      · rcases h1 : assembleRings (roleWays ways r0 Role.outer) with _ | outs
        · have := ih n hnd2 hmem
          constructor
          · simp only [assembleLoop, if_pos hl0, h1, List.mem_cons]
            exact Or.inr this.1
          · intro a ha
            simp only [assembleLoop, if_pos hl0, h1] at ha
            exact this.2 a ha
        · rcases h2 : assembleRings (roleWays ways r0 Role.inner) with _ | ins
          · have := ih n hnd2 hmem
            constructor
            · simp only [assembleLoop, if_pos hl0, h1, h2, List.mem_cons]
              exact Or.inr this.1
            · intro a ha
              simp only [assembleLoop, if_pos hl0, h1, h2] at ha
              exact this.2 a ha
          · have := ih (n + 1) hnd2 hmem
            constructor
            · simp only [assembleLoop, if_pos hl0, h1, h2]
              exact this.1
            · intro a ha
              simp only [assembleLoop, if_pos hl0, h1, h2, List.mem_cons] at ha
              rcases ha with rfl | ha
              · exact hne0
              · exact this.2 a ha
      · have := ih n hnd2 hmem
        constructor
        · simp only [assembleLoop, if_neg hl0]
          exact this.1
        · intro a ha
          simp only [assembleLoop, if_neg hl0] at ha
          exact this.2 a ha

/-- Claim C3: a relation selected by the direct assembler whose outer
role lines cannot be chained into a closed cycle has its id recorded in
the incomplete set and produces no area (no partial polygon), and the
pipeline does not abort: run still returns its stage output for every
valid configuration. -/
theorem claim_C3 (ways : List Way) (relations : List Relation) (levels : List Nat)
    (r : Relation) (hnd : (relations.map Relation.id).Nodup) (hmem : r ∈ relations)
    (hl : r.level ∈ levels)
    (hout : assembleRings (roleWays ways r Role.outer) = none) :
    r.id ∈ (SimpleAreaAssembler.assemble_areas ways relations levels).incomplete ∧
    (∀ a ∈ (SimpleAreaAssembler.assemble_areas ways relations levels).areas,
      a.relation_id ≠ r.id) ∧
    (∀ (radian mercator : ℚ × ℚ → ℚ × ℚ) (cfg : Config) (data : OsmData),
      validConfig cfg = true →
        routine.create.run radian mercator cfg data =
          Except.ok (runStages radian mercator cfg data)) := by
  have h := assembleLoop_incomplete ways levels r hl hout relations 0 hnd hmem
  refine ⟨h.1, h.2, ?_⟩
  intro radian mercator cfg data hv
  unfold routine.create.run
  rw [(validateAll_ok_iff cfg).mpr hv]

/-- Witness for claim C3: a single relation whose only outer line is the
open segment 1-2, which cannot close into a ring. -/
theorem claim_C3_witness :
    assembleRings (roleWays [⟨10, [1, 2]⟩] ⟨5, 2, [⟨10, Role.outer⟩]⟩ Role.outer) = none ∧
    (5 : Int) ∈
      (SimpleAreaAssembler.assemble_areas [⟨10, [1, 2]⟩] [⟨5, 2, [⟨10, Role.outer⟩]⟩]
        [2]).incomplete ∧
    (∀ a ∈ (SimpleAreaAssembler.assemble_areas [⟨10, [1, 2]⟩] [⟨5, 2, [⟨10, Role.outer⟩]⟩]
        [2]).areas, a.relation_id ≠ 5) := by
  have h := claim_C3 [⟨10, [1, 2]⟩] [⟨5, 2, [⟨10, Role.outer⟩]⟩] [2]
    ⟨5, 2, [⟨10, Role.outer⟩]⟩ (by decide) (by decide) (by decide) (by decide)
  exact ⟨by decide, h.1, h.2.1⟩

/-- A point id occurring in two distinct lines of the table is counted
at least twice over the concatenated reference lists. -/
theorem count_refs_two (p : Int) :
    ∀ (l : List Way) (w1 w2 : Way), w1 ∈ l → w2 ∈ l → w1 ≠ w2 →
      p ∈ w1.refs → p ∈ w2.refs → 2 ≤ ((l.map Way.refs).flatten).count p := by
  intro l
  induction l with
  | nil => intro w1 w2 h; cases h
  | cons w rest ih =>
    intro w1 w2 h1 h2 hne hp1 hp2
    rw [List.map_cons, List.flatten_cons, List.count_append]
    rcases List.mem_cons.mp h1 with rfl | hr1
    · rcases List.mem_cons.mp h2 with he | hr2
      · exact absurd he.symm hne
      · have c1 : 0 < w1.refs.count p := List.count_pos_iff.mpr hp1
        have c2 : 0 < ((rest.map Way.refs).flatten).count p :=
          List.count_pos_iff.mpr
            (List.mem_flatten.mpr ⟨w2.refs, List.mem_map_of_mem Way.refs hr2, hp2⟩)
        omega
    · rcases List.mem_cons.mp h2 with rfl | hr2
      · have c1 : 0 < w2.refs.count p := List.count_pos_iff.mpr hp2
        have c2 : 0 < ((rest.map Way.refs).flatten).count p :=
          List.count_pos_iff.mpr
            (List.mem_flatten.mpr ⟨w1.refs, List.mem_map_of_mem Way.refs hr1, hp1⟩)
        omega
      · have := ih w1 w2 hr1 hr2 hne hp1 hp2
        omega

/-- A point referenced by two distinct lines is mandatory for the
simplifier. -/
theorem mandatory_of_two_ways (ways : List Way) (p : Int) (w1 w2 : Way)
    (h1 : w1 ∈ ways) (h2 : w2 ∈ ways) (hne : w1.id ≠ w2.id)
    (hp1 : p ∈ w1.refs) (hp2 : p ∈ w2.refs) : mandatoryNode ways p = true := by
  have hw : w1 ≠ w2 := fun h => hne (by rw [h])
  have := count_refs_two p ways w1 w2 h1 h2 hw hp1 hp2
  simp only [mandatoryNode, refCount, decide_eq_true_eq]
  exact this

/-- A mandatory point of a line survives its simplification. -/
theorem mem_compress_way_of_mandatory (nodes : List Node) (ways : List Way) (eps : ℚ)
    (w : Way) (p : Int) (hp : p ∈ w.refs) (hm : mandatoryNode ways p = true) :
    p ∈ (compress_way nodes ways eps w).refs := by
  unfold compress_way
  refine List.mem_filter.mpr ⟨hp, ?_⟩
  simp [hm]

/-- Claim C5: a point referenced by two distinct lines is, after
simplification at any nonnegative tolerance, still present with the same
id in both simplified lines, both lines are in the output line table
with their ids unchanged, and the point is not deleted from the global
point table. -/
theorem claim_C5 (nodes : List Node) (ways : List Way) (eps : ℚ) (p : Int) (w1 w2 : Way)
    (heps : 0 ≤ eps) (h1 : w1 ∈ ways) (h2 : w2 ∈ ways) (hne : w1.id ≠ w2.id)
    (hp1 : p ∈ w1.refs) (hp2 : p ∈ w2.refs) :
    p ∈ (compress_way nodes ways eps w1).refs ∧
    p ∈ (compress_way nodes ways eps w2).refs ∧
    (compress_way nodes ways eps w1).id = w1.id ∧
    (compress_way nodes ways eps w2).id = w2.id ∧
    compress_way nodes ways eps w1 ∈ (Compressor.compress_ways nodes ways eps).2 ∧
    compress_way nodes ways eps w2 ∈ (Compressor.compress_ways nodes ways eps).2 ∧
    (∀ n ∈ nodes, n.id = p → n ∈ (Compressor.compress_ways nodes ways eps).1) := by
  have hm := mandatory_of_two_ways ways p w1 w2 h1 h2 hne hp1 hp2
  have m1 := mem_compress_way_of_mandatory nodes ways eps w1 p hp1 hm
  have m2 := mem_compress_way_of_mandatory nodes ways eps w2 p hp2 hm
  refine ⟨m1, m2, rfl, rfl, List.mem_map_of_mem _ h1, List.mem_map_of_mem _ h2, ?_⟩
  intro n hn hid
  unfold Compressor.compress_ways
  refine List.mem_filter.mpr ⟨hn, ?_⟩
  simp only [List.any_eq_true, decide_eq_true_eq]
  exact ⟨compress_way nodes ways eps w1,
    List.mem_map_of_mem (compress_way nodes ways eps) h1, by rw [hid]; exact m1⟩

/-- Witness for claim C5: point 2 shared by the two lines 10 and 20 at
tolerance 1. -/
theorem claim_C5_witness :
    (0 : ℚ) ≤ 1 ∧
    (2 : Int) ∈ (compress_way [⟨1, 0, 0⟩, ⟨2, 1, 0⟩, ⟨3, 2, 0⟩]
      [⟨10, [1, 2]⟩, ⟨20, [2, 3]⟩] 1 ⟨10, [1, 2]⟩).refs ∧
    (2 : Int) ∈ (compress_way [⟨1, 0, 0⟩, ⟨2, 1, 0⟩, ⟨3, 2, 0⟩]
      [⟨10, [1, 2]⟩, ⟨20, [2, 3]⟩] 1 ⟨20, [2, 3]⟩).refs ∧
    (∀ n ∈ ([⟨1, 0, 0⟩, ⟨2, 1, 0⟩, ⟨3, 2, 0⟩] : List Node), n.id = 2 →
      n ∈ (Compressor.compress_ways [⟨1, 0, 0⟩, ⟨2, 1, 0⟩, ⟨3, 2, 0⟩]
        [⟨10, [1, 2]⟩, ⟨20, [2, 3]⟩] 1).1) := by
  have h := claim_C5 [⟨1, 0, 0⟩, ⟨2, 1, 0⟩, ⟨3, 2, 0⟩] [⟨10, [1, 2]⟩, ⟨20, [2, 3]⟩]
    1 2 ⟨10, [1, 2]⟩ ⟨20, [2, 3]⟩ (by norm_num) (by decide) (by decide) (by decide)
    (by decide) (by decide)
  exact ⟨by norm_num, h.1, h.2.1, h.2.2.2.2.2.2⟩

/-- Segment sharing characterized by a common segment key. -/
theorem sharesSegment_iff (a b : Area) :
    sharesSegment a b = true ↔ ∃ s, s ∈ a.segKeys ∧ s ∈ b.segKeys := by
  simp [sharesSegment, List.any_eq_true]

/-- Segment sharing is symmetric. -/
theorem sharesSegment_comm (a b : Area) : sharesSegment a b = sharesSegment b a := by
  cases hab : sharesSegment a b with
  | false =>
    cases hba : sharesSegment b a with
    | false => rfl
    | true =>
      rcases (sharesSegment_iff b a).mp hba with ⟨s, hs1, hs2⟩
      have := (sharesSegment_iff a b).mpr ⟨s, hs2, hs1⟩
      rw [hab] at this
      cases this
  | true =>
    rcases (sharesSegment_iff a b).mp hab with ⟨s, hs1, hs2⟩
    exact ((sharesSegment_iff b a).mpr ⟨s, hs2, hs1⟩).symm

/-- Membership in the neighbor list characterized over the area set. -/
theorem mem_neighborsOf (areas : List Area) (a : Area) (x : Int) :
    x ∈ neighborsOf areas a ↔
      ∃ b, b ∈ areas ∧ b.id = x ∧ b.id ≠ a.id ∧ sharesSegment a b = true := by
  unfold neighborsOf
  simp only [List.mem_map, List.mem_filter, Bool.and_eq_true, decide_eq_true_eq]
  constructor
  · rintro ⟨c, ⟨hmem, hne, hs⟩, rfl⟩
    exact ⟨c, hmem, rfl, hne, hs⟩
  · rintro ⟨c, hmem, rfl, hne, hs⟩
    exact ⟨c, ⟨hmem, hne, hs⟩, rfl⟩

/-- One direction of the adjacency symmetry, under distinct area ids. -/
theorem neighborsOf_symm_dir (areas : List Area) (a b : Area)
    (hnd : (areas.map Area.id).Nodup) (ha : a ∈ areas) (hb : b ∈ areas)
    (h : b.id ∈ neighborsOf areas a) : a.id ∈ neighborsOf areas b := by
  rcases (mem_neighborsOf areas a b.id).mp h with ⟨c, hc, hcid, hcne, hcs⟩
  have hcb : c = b := List.inj_on_of_nodup_map hnd hc hb hcid
  refine (mem_neighborsOf areas b a.id).mpr ⟨a, ha, rfl, ?_, ?_⟩
  · exact fun he => hcne (hcid.trans he.symm)
  · rw [sharesSegment_comm, ← hcb]
    exact hcs

/-- Claim C6: the adjacency graph is symmetric (b is a neighbor of a iff
a is a neighbor of b) and, as a set, the neighbor list of an area does
not depend on the order of the areas. -/
theorem claim_C6 (areas areas2 : List Area) (a b : Area)
    (hnd : (areas.map Area.id).Nodup) (hperm : areas.Perm areas2)
    (ha : a ∈ areas) (hb : b ∈ areas) :
    (b.id ∈ neighborsOf areas a ↔ a.id ∈ neighborsOf areas b) ∧
    (∀ x, x ∈ neighborsOf areas a ↔ x ∈ neighborsOf areas2 a) := by
  constructor
  · exact ⟨neighborsOf_symm_dir areas a b hnd ha hb,
      neighborsOf_symm_dir areas b a hnd hb ha⟩
  · intro x
    rw [mem_neighborsOf, mem_neighborsOf]
    constructor
    · rintro ⟨c, hc, rest⟩
      exact ⟨c, hperm.mem_iff.mp hc, rest⟩
    · rintro ⟨c, hc, rest⟩
      exact ⟨c, hperm.mem_iff.mpr hc, rest⟩

/-- Witness for claim C6 at the two adjacent squares, with the reversed
list as the permuted area set. -/
theorem claim_C6_witness :
    ([(⟨0, 1, 2, [[1, 2, 3, 4, 1]], []⟩ : Area), ⟨1, 2, 2, [[2, 5, 6, 3, 2]], []⟩].map
      Area.id).Nodup ∧
    List.Perm [(⟨0, 1, 2, [[1, 2, 3, 4, 1]], []⟩ : Area), ⟨1, 2, 2, [[2, 5, 6, 3, 2]], []⟩]
      [⟨1, 2, 2, [[2, 5, 6, 3, 2]], []⟩, ⟨0, 1, 2, [[1, 2, 3, 4, 1]], []⟩] ∧
    (((1 : Int) ∈ neighborsOf
        [⟨0, 1, 2, [[1, 2, 3, 4, 1]], []⟩, ⟨1, 2, 2, [[2, 5, 6, 3, 2]], []⟩]
        ⟨0, 1, 2, [[1, 2, 3, 4, 1]], []⟩ ↔
      (0 : Int) ∈ neighborsOf
        [⟨0, 1, 2, [[1, 2, 3, 4, 1]], []⟩, ⟨1, 2, 2, [[2, 5, 6, 3, 2]], []⟩]
        ⟨1, 2, 2, [[2, 5, 6, 3, 2]], []⟩) ∧
    (∀ x, x ∈ neighborsOf
        [⟨0, 1, 2, [[1, 2, 3, 4, 1]], []⟩, ⟨1, 2, 2, [[2, 5, 6, 3, 2]], []⟩]
        ⟨0, 1, 2, [[1, 2, 3, 4, 1]], []⟩ ↔
      x ∈ neighborsOf
        [⟨1, 2, 2, [[2, 5, 6, 3, 2]], []⟩, ⟨0, 1, 2, [[1, 2, 3, 4, 1]], []⟩]
        ⟨0, 1, 2, [[1, 2, 3, 4, 1]], []⟩)) :=
  ⟨by decide, by decide,
   claim_C6 [⟨0, 1, 2, [[1, 2, 3, 4, 1]], []⟩, ⟨1, 2, 2, [[2, 5, 6, 3, 2]], []⟩]
     [⟨1, 2, 2, [[2, 5, 6, 3, 2]], []⟩, ⟨0, 1, 2, [[1, 2, 3, 4, 1]], []⟩]
     ⟨0, 1, 2, [[1, 2, 3, 4, 1]], []⟩ ⟨1, 2, 2, [[2, 5, 6, 3, 2]], []⟩
     (by decide) (by decide) (by decide) (by decide)⟩

/-- A successful run returns exactly the stage pipeline output. -/
theorem run_ok_inv (radian mercator : ℚ × ℚ → ℚ × ℚ) (cfg : Config) (data : OsmData)
    (res : RunResult)
    (h : routine.create.run radian mercator cfg data = Except.ok res) :
    res = runStages radian mercator cfg data := by
  unfold routine.create.run at h
  cases hv : validateAll cfg with
  | error e =>
    rw [hv] at h
    cases h
  | ok u =>
    rw [hv] at h
    injection h with h
    exact h.symm

/-- Claim C2, amended: the driver computes the adjacency graph and
component map exactly once and never recomputes them after the area set
changes; however, their only read (the area filter) happens before any
change, so no stage of the trace reads a graph or component map derived
from a superseded area set. -/
theorem claim_C2_amended (radian mercator : ℚ × ℚ → ℚ × ℚ) (cfg : Config)
    (data : OsmData) (res : RunResult)
    (h : routine.create.run radian mercator cfg data = Except.ok res) :
    noStaleGraphUse res.events = true ∧
    (res.events.filter Event.isInspect).length = 1 := by
  have hres := run_ok_inv radian mercator cfg data res h
  subst hres
  unfold runStages noStaleGraphUse
  by_cases c1 : 0 < cfg.compression_epsilon <;>
    by_cases c2 : 0 < cfg.filter_epsilon <;>
      by_cases c3 : cfg.bonus_levels.isEmpty = true <;>
        simp [c1, c2, c3, graphUseOk, Event.usesGraph, Event.isInspect, changesAreaSet,
          List.filter]

/-- Witness for the amended claim C2 at the two-squares pipeline. -/
theorem claim_C2_amended_witness :
    routine.create.run id id cfgTwoSquares dataTwoSquares =
      Except.ok (runStages id id cfgTwoSquares dataTwoSquares) ∧
    noStaleGraphUse (runStages id id cfgTwoSquares dataTwoSquares).events = true ∧
    ((runStages id id cfgTwoSquares dataTwoSquares).events.filter
      Event.isInspect).length = 1 := by
  have hrun : routine.create.run id id cfgTwoSquares dataTwoSquares =
      Except.ok (runStages id id cfgTwoSquares dataTwoSquares) := by
    unfold routine.create.run
    have : validateAll cfgTwoSquares = Except.ok () := by
      rw [validateAll_ok_iff]
      rfl
    rw [this]
  exact ⟨hrun, claim_C2_amended id id cfgTwoSquares dataTwoSquares _ hrun⟩

/-- At tolerance 1, both squares of the two-squares dataset fall below
the relative-size threshold and the filter removes them all. -/
theorem filterTwoSquares :
    AreaFilter.filter_areas nodesTwoSquares
      [⟨0, 1, 2, [[1, 2, 3, 4, 1]], []⟩, ⟨1, 2, 2, [[2, 5, 6, 3, 2]], []⟩]
      [(0, 0), (1, 0)] 1 = [] := by
  norm_num [AreaFilter.filter_areas, List.filter, compOf, compTotal, areaSize, ringSize,
    shoelaceSum, coordOf, nodesTwoSquares, List.find?]

/-- Claim C2, counterexample: on the two-squares pipeline the area set
changes twice after the single inspection (the filter removes both
territories, the composite assembler appends one bonus area), yet no
later event recomputes the adjacency graph or component map, so the
recomputation discipline asserted by the claim fails on this trace. -/
theorem claim_C2_counterexample :
    routine.create.run id id cfgTwoSquares dataTwoSquares =
      Except.ok (runStages id id cfgTwoSquares dataTwoSquares) ∧
    (runStages id id cfgTwoSquares dataTwoSquares).events =
      [Event.readData 0, Event.assembleTerritories 0 2, Event.inspect,
       Event.filterAreas 2 0, Event.assembleBonus 0 1, Event.project,
       Event.scaleMap 1000 0] ∧
    changesAreaSet (Event.filterAreas 2 0) = true ∧
    changesAreaSet (Event.assembleBonus 0 1) = true ∧
    claimC2asStated (runStages id id cfgTwoSquares dataTwoSquares).events = false := by
  have hrun : routine.create.run id id cfgTwoSquares dataTwoSquares =
      Except.ok (runStages id id cfgTwoSquares dataTwoSquares) := by
    unfold routine.create.run
    have hok : validateAll cfgTwoSquares = Except.ok () := by
      rw [validateAll_ok_iff]
      rfl
    rw [hok]
  have hev : (runStages id id cfgTwoSquares dataTwoSquares).events =
      [Event.readData 0, Event.assembleTerritories 0 2, Event.inspect,
       Event.filterAreas 2 0, Event.assembleBonus 0 1, Event.project,
       Event.scaleMap 1000 0] := by
    have hc1 : ¬ (0:ℚ) < cfgTwoSquares.compression_epsilon := by
      norm_num [cfgTwoSquares]
    have hc2 : (0:ℚ) < cfgTwoSquares.filter_epsilon := by norm_num [cfgTwoSquares]
    have hc3 : ¬ (cfgTwoSquares.bonus_levels.isEmpty = true) := by decide
    unfold runStages
    simp only [if_neg hc1, if_pos hc2, if_neg hc3]
    rw [show (SimpleAreaAssembler.assemble_areas dataTwoSquares.ways
        dataTwoSquares.relations [cfgTwoSquares.territory_level]).areas =
      [⟨0, 1, 2, [[1, 2, 3, 4, 1]], []⟩, ⟨1, 2, 2, [[2, 5, 6, 3, 2]], []⟩] from rfl]
    rw [show (NeighborInspector.get_relations
        [(⟨0, 1, 2, [[1, 2, 3, 4, 1]], []⟩ : Area), ⟨1, 2, 2, [[2, 5, 6, 3, 2]], []⟩]).2 =
      [(0, 0), (1, 0)] from rfl]
    rw [show dataTwoSquares.nodes = nodesTwoSquares from rfl,
        show cfgTwoSquares.filter_epsilon = (1:ℚ) from rfl]
    rw [filterTwoSquares]
    rw [show bonusPhase dataTwoSquares.ways dataTwoSquares.relations []
        cfgTwoSquares.bonus_levels = [⟨0, 3, 4, [[1, 2, 3, 4, 1]], []⟩] from rfl]
    norm_num [scalePhase, autoDimensions, scaleBounds, Rectangle.defaultRect,
      Rectangle.width, Rectangle.height, dataTwoSquares, cfgTwoSquares]
  refine ⟨hrun, hev, rfl, rfl, ?_⟩
  rw [hev]
  rfl

end WarzoneOSM
